import Mathlib

/-!
Verification of the pipewire-sample-rate-switcher program (src/src/main.rs).

The program is shallowly embedded: pure Rust functions become Lean functions
over `Nat` and `List Char`; fallible code (Rust panics, `io::Result`) becomes
`Except String` / `Option`; the side-effecting parts of `main` and of the
restart helper are modelled by an explicit environment record carrying the
outcomes of the external operations (file contents, write success, systemctl
results), and `main` becomes a pure function from that environment to a
result that records the exit code and which external steps were invoked.

Sample rates are Rust `u32` values; every rate the program manipulates is
produced by parsing a 4-or-5 digit decimal string, so all values fit far
below `2^32` and `Nat` is a faithful representation (no overflow is possible
in the source, which performs no arithmetic on the rates).
-/

namespace PwSwitcher

/-! ## The rate cycler (`next_rate`, main.rs lines 136-142)

Rust:
```
fn next_rate(options: &[u32], current: u32) -> u32 {
    if let Some(i) = options.iter().position(|&r| r == current) {
        options[(i + 1) % options.len()]
    } else {
        options[0]
    }
}
```
`slice::position` is `List.findIdx?`; the indexings `options[(i+1) % len]`
and `options[0]` are in bounds whenever `options` is non-empty (the only way
the program calls it), so they are rendered with `List.getD` with an
arbitrary default that is never reached on non-empty input. -/

def next_rate (options : List Nat) (current : Nat) : Nat :=
  match options.findIdx? (fun r => r == current) with
  | some i => options.getD ((i + 1) % options.length) 0
  | none => options.getD 0 0

/-! ### Lemmas about `next_rate` -/

/-- On a duplicate-free list, `position` returns exactly the index of the
occurrence. -/
lemma findIdx_beq_of_pairwise_lt (options : List Nat) (i : Nat)
    (hsort : options.Pairwise (· < ·)) (hi : i < options.length) :
    options.findIdx? (fun r => r == options.get ⟨i, hi⟩) = some i := by
  rw [List.findIdx?_eq_some_iff_getElem]
  refine ⟨hi, ?_, ?_⟩
  · simp [List.get_eq_getElem]
  · intro j hji
    have hlt : options[j] < options[i] := List.pairwise_iff_getElem.mp hsort j i
      (Nat.lt_trans hji hi) hi hji
    simp only [Bool.not_eq_true, beq_eq_false_iff_ne, ne_eq, List.get_eq_getElem]
    exact fun hEq => absurd (hEq ▸ hlt) (lt_irrefl _)

/-- Core behaviour of the cycler on a member of a strictly sorted list:
it moves from index `i` to index `(i+1) mod length`. -/
lemma next_rate_get (options : List Nat) (i : Nat)
    (hsort : options.Pairwise (· < ·)) (hi : i < options.length) :
    next_rate options (options.get ⟨i, hi⟩) =
      options.get ⟨(i + 1) % options.length,
        Nat.mod_lt _ (Nat.lt_of_le_of_lt (Nat.zero_le i) hi)⟩ := by
  unfold next_rate
  rw [findIdx_beq_of_pairwise_lt options i hsort hi]
  have hlen : 0 < options.length := Nat.lt_of_le_of_lt (Nat.zero_le i) hi
  dsimp only
  rw [List.getD_eq_getElem options 0 (Nat.mod_lt _ hlen)]
  simp [List.get_eq_getElem]

/-- Iterating the cycler `k` times from index `i` lands on index
`(i + k) mod length`. -/
lemma next_rate_iterate (options : List Nat)
    (hsort : options.Pairwise (· < ·)) (k : Nat) :
    ∀ (i : Nat) (hi : i < options.length),
      (next_rate options)^[k] (options.get ⟨i, hi⟩) =
        options.get ⟨(i + k) % options.length,
          Nat.mod_lt _ (Nat.lt_of_le_of_lt (Nat.zero_le i) hi)⟩ := by
  induction k with
  | zero =>
    intro i hi
    simp [Nat.mod_eq_of_lt hi]
  | succ k ih =>
    intro i hi
    have hlen : 0 < options.length := Nat.lt_of_le_of_lt (Nat.zero_le i) hi
    rw [Function.iterate_succ_apply, next_rate_get options i hsort hi,
      ih ((i + 1) % options.length) (Nat.mod_lt _ hlen)]
    congr 1
    apply Fin.ext
    simp only
    rw [Nat.mod_add_mod, Nat.add_assoc, Nat.add_comm 1 k]

/-! ## Claim theorems for the rate cycler -/

/-- C1: for a strictly-ordered duplicate-free list `options` (hence
duplicate-free) and a `current` occurring at index `i`, `next_rate` returns
`options[(i+1) mod len(options)]` (the cyclic successor). -/
theorem C1_next_rate_cyclic_successor (options : List Nat) (i : Nat) (current : Nat)
    (hsort : options.Pairwise (· < ·)) (hi : i < options.length)
    (hcur : options.get ⟨i, hi⟩ = current) :
    next_rate options current =
      options.get ⟨(i + 1) % options.length,
        Nat.mod_lt _ (Nat.lt_of_le_of_lt (Nat.zero_le i) hi)⟩ := by
  subst hcur
  exact next_rate_get options i hsort hi

/-- C1 witness: with allowed set [44100, 48000, 96000], current 48000 yields
96000 (index 1 → index 2) and current 96000 yields 44100 (index 2 wraps to
index 0). -/
theorem C1_witness :
    next_rate [44100, 48000, 96000] 48000 = 96000 ∧
      next_rate [44100, 48000, 96000] 96000 = 44100 := by
  constructor
  · have h := C1_next_rate_cyclic_successor [44100, 48000, 96000] 1 48000
      (by decide) (by decide) (by decide)
    simpa using h
  · have h := C1_next_rate_cyclic_successor [44100, 48000, 96000] 2 96000
      (by decide) (by decide) (by decide)
    simpa using h

/-- C2: when `current` does not occur in the non-empty list `options`,
`next_rate` returns the first element `options[0]`. -/
theorem C2_next_rate_unknown_current (options : List Nat) (current : Nat)
    (hne : options ≠ []) (hmem : current ∉ options) :
    next_rate options current = options.head hne := by
  unfold next_rate
  have hnone : options.findIdx? (fun r => r == current) = none := by
    rw [List.findIdx?_eq_none_iff]
    intro x hx
    simp only [beq_eq_false_iff_ne, ne_eq]
    exact fun hEq => hmem (hEq ▸ hx)
  rw [hnone]
  cases options with
  | nil => exact absurd rfl hne
  | cons a l => rfl

/-- C2 witness: 22050 is not in [44100, 48000, 96000]; the cycler falls back
to the first element 44100. -/
theorem C2_witness :
    22050 ∉ [44100, 48000, 96000] ∧ next_rate [44100, 48000, 96000] 22050 = 44100 :=
  ⟨by decide, C2_next_rate_unknown_current [44100, 48000, 96000] 22050
    (by decide) (by decide)⟩

/-- C3: applying `next_rate` exactly `len(A)` times to a member of a
strictly-ordered duplicate-free list `A` returns the starting value (full
cycle closure). -/
theorem C3_next_rate_full_cycle (A : List Nat) (start : Nat)
    (hsort : A.Pairwise (· < ·)) (hmem : start ∈ A) :
    (next_rate A)^[A.length] start = start := by
  obtain ⟨⟨i, hi⟩, hget⟩ := List.mem_iff_get.mp hmem
  subst hget
  rw [next_rate_iterate A hsort A.length i hi]
  congr 1
  apply Fin.ext
  simp only
  rw [Nat.add_mod_right, Nat.mod_eq_of_lt hi]

/-- C3 witness: cycling three times on [44100, 48000, 96000] starting from
48000 returns 48000. -/
theorem C3_witness :
    (next_rate [44100, 48000, 96000])^[3] 48000 = 48000 := by
  have h := C3_next_rate_full_cycle [44100, 48000, 96000] 48000
    (by decide) (by decide)
  simpa using h

/-- C10: for a non-empty list `options` and any `current` whatsoever, the
value `next_rate` returns is a member of `options`. -/
theorem C10_next_rate_mem (options : List Nat) (current : Nat)
    (hne : options ≠ []) :
    next_rate options current ∈ options := by
  have hlen : 0 < options.length := List.length_pos.mpr hne
  unfold next_rate
  cases hfind : options.findIdx? (fun r => r == current) with
  | some i =>
    dsimp only
    rw [List.getD_eq_getElem options 0 (Nat.mod_lt _ hlen)]
    exact List.getElem_mem _
  | none =>
    dsimp only
    rw [List.getD_eq_getElem options 0 hlen]
    exact List.getElem_mem _

/-- C10 witness: even for a junk current value (7) the result stays inside
the allowed set. -/
theorem C10_witness :
    next_rate [44100, 48000, 96000] 7 ∈ [44100, 48000, 96000] :=
  C10_next_rate_mem [44100, 48000, 96000] 7 (by decide)

/-! ## String machinery

Rust `&str` values are embedded as `List Char`. The helpers below mirror the
`str` methods the program uses: `lines`, `contains`, `trim_start`,
`starts_with`, and the two regular expressions. -/

/-- Rust `char::is_whitespace`: the Unicode `White_Space` property. -/
def rustIsWhitespace (c : Char) : Bool :=
  let n := c.toNat
  (0x09 ≤ n && n ≤ 0x0D) || n == 0x20 || n == 0x85 || n == 0xA0 ||
    n == 0x1680 || (0x2000 ≤ n && n ≤ 0x200A) || n == 0x2028 || n == 0x2029 ||
    n == 0x202F || n == 0x205F || n == 0x3000

/-- Prepend a character to the first segment of a segment list. -/
def consHead (c : Char) : List (List Char) → List (List Char)
  | [] => [[c]]
  | l :: ls => (c :: l) :: ls

/-- Split at every newline character; a terminal segment is always present
(so the result is never empty). -/
def splitNl : List Char → List (List Char)
  | [] => [[]]
  | c :: rest =>
    if c = '\n' then [] :: splitNl rest
    else consHead c (splitNl rest)

/-- Remove one trailing carriage return (for `\r\n` line endings). -/
def stripCr (l : List Char) : List Char :=
  if l.getLast? = some '\r' then l.dropLast else l

/-- Apply `f` to every element except the last one. -/
def mapInit (f : List Char → List Char) : List (List Char) → List (List Char)
  | [] => []
  | [a] => [a]
  | a :: b :: rest => f a :: mapInit f (b :: rest)

/-- Rust `str::lines`: split at `\n` (also consuming a `\r` directly before
it); a final line ending produces no extra empty line, and the final segment
keeps a lone trailing `\r` (a bare `\r` is not a line ending). -/
def rustLines (s : List Char) : List (List Char) :=
  let ls := mapInit stripCr (splitNl s)
  if ls.getLast? = some [] then ls.dropLast else ls

/-- Rust `str::starts_with`: `startsWithL needle hay` tests whether `hay`
begins with `needle`. -/
def startsWithL : List Char → List Char → Bool
  | [], _ => true
  | _ :: _, [] => false
  | c :: ns, h :: hs => c == h && startsWithL ns hs

/-- Rust `str::contains` with a literal pattern: does `needle` occur as a
contiguous substring of the second argument? -/
def containsSub (needle : List Char) : List Char → Bool
  | [] => needle.isEmpty
  | c :: rest => startsWithL needle (c :: rest) || containsSub needle rest

/-- Rust `str::trim_start`. -/
def trimStartL (l : List Char) : List Char :=
  l.dropWhile rustIsWhitespace

/-- Numeric value of a list of decimal digit characters (Rust
`str::parse::<u32>` on a match of `\d{4,5}`, which never fails and never
overflows since the value is below `10^5`). -/
def digitsToNat (l : List Char) : Nat :=
  l.foldl (fun n c => n * 10 + (c.toNat - '0'.toNat)) 0

/-- All matches of the regex `(\d{4,5})` over the input, in order
(`Regex::captures_iter` semantics: scan left to right for the leftmost
match; `\d{4,5}` greedily takes five digits when available, else four; a
maximal digit run shorter than four digits can never match and is skipped
whole). `\d` is modelled as an ASCII digit: a non-ASCII Unicode digit would
make the surrounding `parse::<u32>` fail and the match be discarded by the
source's `filter_map`, so on ASCII input — the only kind the program
documents — the model is exact. The first argument is fuel (the recursion
consumes at least one character per step, so `l.length` is enough). -/
def extractNumsF : Nat → List Char → List Nat
  | 0, _ => []
  | _ + 1, [] => []
  | fuel + 1, c :: rest =>
    if c.isDigit then
      let run := (c :: rest).takeWhile Char.isDigit
      if 4 ≤ run.length then
        digitsToNat (run.take 5) :: extractNumsF fuel ((c :: rest).drop (run.take 5).length)
      else
        extractNumsF fuel ((c :: rest).drop run.length)
    else
      extractNumsF fuel rest

/-- All `(\d{4,5})` matches of a line. -/
def extractNums (l : List Char) : List Nat :=
  extractNumsF l.length l

/-- Rust `Vec::dedup` tail worker: drop every element equal to the one kept
just before it. -/
def dedupAfter : Nat → List Nat → List Nat
  | _, [] => []
  | prev, b :: rest =>
    if b == prev then dedupAfter prev rest else b :: dedupAfter b rest

/-- Rust `Vec::dedup`: remove consecutive duplicate elements, keeping the
first of each run. -/
def dedupC : List Nat → List Nat
  | [] => []
  | a :: rest => a :: dedupAfter a rest

/-- Rust `sort_unstable` on `Vec<u32>` sorts ascending; since a sorted
permutation of a list over a linear order is unique, any correct ascending
sort is extensionally the same function, and insertion sort is used here. -/
def rustSort (l : List Nat) : List Nat :=
  List.insertionSort (· ≤ ·) l

/-! ## `parse_options_from_sway` (main.rs lines 97-134)

The Rust function panics on malformed input; panics are embedded as
`Except.error` with the corresponding message. -/

/-- The literal `"# Sample Rate Options ="` the options line must start
with (after `trim_start`). -/
def optionsLineMarker : List Char := "# Sample Rate Options =".data

def parse_options_from_sway (content start_marker end_marker : List Char) :
    Except String (List Nat) :=
  let lines := rustLines content
  match lines.findIdx? (fun l => containsSub start_marker l) with
  | none => .error ("Marker " ++ start_marker.asString ++ " not found in sway config.")
  | some start_idx =>
    match lines.findIdx? (fun l => containsSub end_marker l) with
    | none => .error ("Marker " ++ end_marker.asString ++ " not found in sway config.")
    | some end_idx =>
      if end_idx ≤ start_idx then
        .error "Options End marker appears before Start marker."
      else
        match ((lines.drop start_idx).take (end_idx - start_idx + 1)).find?
            (fun l => startsWithL optionsLineMarker (trimStartL l)) with
        | none =>
          .error "Could not find a line like # Sample Rate Options = 44100, 48000 in the options block."
        | some opt_line =>
          let options := extractNums opt_line
          if options.isEmpty then
            .error ("No sample-rate numbers found on options line: " ++ opt_line.asString ++ ".")
          else
            .ok (dedupC (rustSort options))

/-- The start marker `main` passes to the parser (main.rs line 44). -/
def startMarker : List Char := "Pipewire Sample Rate Options Start".data

/-- The end marker `main` passes to the parser (main.rs line 45). -/
def endMarker : List Char := "Pipewire Sample Rate Options End".data

/-! ### Lemmas about the line splitter -/

lemma splitNl_ne_nil (s : List Char) : splitNl s ≠ [] := by
  cases s with
  | nil => simp [splitNl]
  | cons c rest =>
    unfold splitNl
    by_cases h : c = '\n'
    · simp [h]
    · rw [if_neg h]
      cases splitNl rest <;> simp [consHead]

lemma splitNl_append (l1 rest : List Char) (h : '\n' ∉ l1) :
    splitNl (l1 ++ '\n' :: rest) = l1 :: splitNl rest := by
  induction l1 with
  | nil => simp [splitNl]
  | cons c l1 ih =>
    have hc : c ≠ '\n' := fun hEq => h (hEq ▸ List.mem_cons_self c l1)
    have hmem : '\n' ∉ l1 := fun hmem => h (List.mem_cons_of_mem c hmem)
    rw [List.cons_append, show splitNl (c :: (l1 ++ '\n' :: rest)) =
      if c = '\n' then [] :: splitNl (l1 ++ '\n' :: rest)
      else consHead c (splitNl (l1 ++ '\n' :: rest)) from rfl,
      if_neg hc, ih hmem]
    rfl

lemma mapInit_cons (f : List Char → List Char) (a : List Char)
    (ls : List (List Char)) (h : ls ≠ []) :
    mapInit f (a :: ls) = f a :: mapInit f ls := by
  cases ls with
  | nil => exact absurd rfl h
  | cons b rest => rfl

lemma mapInit_ne_nil (f : List Char → List Char) (ls : List (List Char))
    (h : ls ≠ []) : mapInit f ls ≠ [] := by
  cases ls with
  | nil => exact absurd rfl h
  | cons a rest => cases rest <;> simp [mapInit]

lemma stripCr_eq_self (l : List Char) (h : '\r' ∉ l) : stripCr l = l := by
  unfold stripCr
  cases hl : l.getLast? with
  | none => simp
  | some c =>
    have hc : c ∈ l := List.mem_of_getLast?_eq_some hl
    have : c ≠ '\r' := fun hEq => h (hEq ▸ hc)
    simp [this]

/-- Peeling one newline-terminated line off the front of the input. -/
lemma rustLines_cons (l1 rest : List Char) (h : '\n' ∉ l1) :
    rustLines (l1 ++ '\n' :: rest) = stripCr l1 :: rustLines rest := by
  unfold rustLines
  dsimp only
  rw [splitNl_append l1 rest h]
  have hne : splitNl rest ≠ [] := splitNl_ne_nil rest
  rw [mapInit_cons stripCr l1 (splitNl rest) hne]
  have hne2 : mapInit stripCr (splitNl rest) ≠ [] := mapInit_ne_nil _ _ hne
  obtain ⟨m, ms, hms⟩ : ∃ m ms, mapInit stripCr (splitNl rest) = m :: ms := by
    cases hx : mapInit stripCr (splitNl rest) with
    | nil => exact absurd hx hne2
    | cons m ms => exact ⟨m, ms, rfl⟩
  rw [hms, List.getLast?_cons_cons]
  by_cases hlast : (m :: ms).getLast? = some []
  · rw [if_pos hlast, if_pos hlast, List.dropLast_cons₂]
  · rw [if_neg hlast, if_neg hlast]

/-! ### Lemmas about sort and dedup -/

lemma mem_cons_dedupAfter (x : Nat) :
    ∀ (l : List Nat) (p : Nat), x ∈ p :: dedupAfter p l ↔ x ∈ p :: l := by
  intro l
  induction l with
  | nil => intro p; simp [dedupAfter]
  | cons b rest ih =>
    intro p
    unfold dedupAfter
    by_cases hb : b = p
    · subst hb
      simp only [beq_self_eq_true, if_true]
      have hib := ih b
      simp only [List.mem_cons] at hib ⊢
      tauto
    · rw [if_neg (show ¬((b == p) = true) by simp [hb])]
      have hib := ih b
      simp only [List.mem_cons] at hib ⊢
      tauto

/-- `Vec::dedup` does not change the set of elements. -/
lemma mem_dedupC (x : Nat) (l : List Nat) : x ∈ dedupC l ↔ x ∈ l := by
  cases l with
  | nil => simp [dedupC]
  | cons a rest => exact mem_cons_dedupAfter x rest a

lemma dedupC_ne_nil (l : List Nat) (h : l ≠ []) : dedupC l ≠ [] := by
  cases l with
  | nil => exact absurd rfl h
  | cons a rest => simp [dedupC]

/-- Deduplicating a `≤`-sorted list headed by `p` gives a `<`-chain. -/
lemma chain_lt_cons_dedupAfter :
    ∀ (l : List Nat) (p : Nat), l.Sorted (· ≤ ·) → (∀ x ∈ l, p ≤ x) →
      List.Chain' (· < ·) (p :: dedupAfter p l) := by
  intro l
  induction l with
  | nil => intro p _ _; simp [dedupAfter]
  | cons b rest ih =>
    intro p hs hp
    unfold dedupAfter
    by_cases hb : b = p
    · subst hb
      simp only [beq_self_eq_true, if_true]
      exact ih b hs.of_cons fun x hx => List.rel_of_sorted_cons hs x hx
    · rw [if_neg (show ¬((b == p) = true) by simp [hb])]
      have hpb : p < b :=
        lt_of_le_of_ne (hp b (List.mem_cons_self b rest)) (Ne.symm hb)
      rw [List.chain'_cons]
      exact ⟨hpb, ih b hs.of_cons fun x hx => List.rel_of_sorted_cons hs x hx⟩

/-- Deduplicating a `≤`-sorted list gives a strictly increasing list. -/
lemma pairwise_lt_dedupC (l : List Nat) (hs : l.Sorted (· ≤ ·)) :
    (dedupC l).Pairwise (· < ·) := by
  cases l with
  | nil => simp [dedupC]
  | cons a rest =>
    have hc : List.Chain' (· < ·) (a :: dedupAfter a rest) :=
      chain_lt_cons_dedupAfter rest a hs.of_cons
        fun x hx => List.rel_of_sorted_cons hs x hx
    exact List.chain'_iff_pairwise.mp hc

lemma rustSort_sorted (l : List Nat) : (rustSort l).Sorted (· ≤ ·) :=
  List.sorted_insertionSort (· ≤ ·) l

lemma rustSort_ne_nil (l : List Nat) (h : l ≠ []) : rustSort l ≠ [] := by
  intro hnil
  have hp := List.perm_insertionSort (· ≤ ·) l
  rw [show List.insertionSort (· ≤ ·) l = rustSort l from rfl, hnil] at hp
  exact h hp.symm.eq_nil

lemma mem_rustSort (x : Nat) (l : List Nat) : x ∈ rustSort l ↔ x ∈ l :=
  (List.perm_insertionSort (· ≤ ·) l).mem_iff

/-- The normalization performed on the extracted numbers: non-empty input
gives a non-empty, strictly increasing output with the same elements. -/
lemma sortDedup_props (nums : List Nat) (h : nums ≠ []) :
    dedupC (rustSort nums) ≠ [] ∧ (dedupC (rustSort nums)).Pairwise (· < ·) ∧
      ∀ x, x ∈ dedupC (rustSort nums) ↔ x ∈ nums := by
  refine ⟨dedupC_ne_nil _ (rustSort_ne_nil nums h), pairwise_lt_dedupC _ (rustSort_sorted nums), ?_⟩
  intro x
  rw [mem_dedupC, mem_rustSort]

/-- Symbolic evaluation of `parse_options_from_sway` on the success path:
given the values of the line split, the two marker searches, the marker
order check, the options-line search and the emptiness check, the parser
returns the sorted deduplicated extraction of the options line. -/
lemma parse_eval (content s e : List Char) (L : List (List Char)) (i j : Nat)
    (optLine : List Char)
    (hL : rustLines content = L)
    (hi : L.findIdx? (fun l => containsSub s l) = some i)
    (hj : L.findIdx? (fun l => containsSub e l) = some j)
    (hij : ¬ j ≤ i)
    (hfind : ((L.drop i).take (j - i + 1)).find?
      (fun l => startsWithL optionsLineMarker (trimStartL l)) = some optLine)
    (hne : extractNums optLine ≠ []) :
    parse_options_from_sway content s e =
      .ok (dedupC (rustSort (extractNums optLine))) := by
  unfold parse_options_from_sway
  dsimp only
  rw [hL, hi]
  dsimp only
  rw [hj]
  dsimp only
  rw [if_neg hij, hfind]
  dsimp only
  have hempty : (extractNums optLine).isEmpty = false := by
    cases hx : extractNums optLine with
    | nil => exact absurd hx hne
    | cons a l => rfl
  rw [hempty]
  simp

/-! ## Claim theorems for the parser -/

/-- The literal line holding the start marker in the modelled config. -/
def swayStartLine : List Char := "# Pipewire Sample Rate Options Start".data

/-- The literal line holding the end marker in the modelled config. -/
def swayEndLine : List Char := "# Pipewire Sample Rate Options End".data

/-- A sway config consisting of a well-formed marked block around a given
options line. -/
def mkSwayBlock (optLine : List Char) : List Char :=
  swayStartLine ++ '\n' :: (optLine ++ '\n' :: (swayEndLine ++ ['\n']))

/-- C4: on a well-formed marked block, `parse_options_from_sway` extracts
exactly the 4-5 digit integers of the options line (`extractNums` is the
`(\d{4,5})` scan) and returns them sorted ascending with duplicates
removed: the result is `dedupC (rustSort (extractNums optLine))`, which is
strictly increasing and has exactly the extracted numbers as elements.
The hypotheses say the options line is a single clean line (no newline, no
carriage return, not containing the end marker) that starts — after
whitespace trimming — with the literal `# Sample Rate Options =` and holds
at least one 4-5 digit number. -/
theorem C4_parse_options_normalizes (optLine : List Char)
    (hnl : '\n' ∉ optLine) (hcr : '\r' ∉ optLine)
    (hpre : startsWithL optionsLineMarker (trimStartL optLine) = true)
    (hend : containsSub endMarker optLine = false)
    (hne : extractNums optLine ≠ []) :
    parse_options_from_sway (mkSwayBlock optLine) startMarker endMarker =
      .ok (dedupC (rustSort (extractNums optLine))) ∧
    (dedupC (rustSort (extractNums optLine))).Pairwise (· < ·) ∧
    ∀ x, x ∈ dedupC (rustSort (extractNums optLine)) ↔ x ∈ extractNums optLine := by
  obtain ⟨-, hp, hm⟩ := sortDedup_props (extractNums optLine) hne
  refine ⟨?_, hp, hm⟩
  have hlines : rustLines (mkSwayBlock optLine) = [swayStartLine, optLine, swayEndLine] := by
    unfold mkSwayBlock
    rw [rustLines_cons _ _ (by decide), rustLines_cons _ _ hnl,
      stripCr_eq_self _ hcr,
      show rustLines (swayEndLine ++ ['\n']) = [swayEndLine] from by decide,
      show stripCr swayStartLine = swayStartLine from by decide]
  have hi : ([swayStartLine, optLine, swayEndLine]).findIdx?
      (fun l => containsSub startMarker l) = some 0 := by
    have h0 : containsSub startMarker swayStartLine = true := by decide
    simp [List.findIdx?_cons, h0]
  have hj : ([swayStartLine, optLine, swayEndLine]).findIdx?
      (fun l => containsSub endMarker l) = some 2 := by
    have h0 : containsSub endMarker swayStartLine = false := by decide
    have h2 : containsSub endMarker swayEndLine = true := by decide
    simp [List.findIdx?_cons, h0, h2, hend]
  have hfind : ((([swayStartLine, optLine, swayEndLine]).drop 0).take (2 - 0 + 1)).find?
      (fun l => startsWithL optionsLineMarker (trimStartL l)) = some optLine := by
    have h0 : ¬ (startsWithL optionsLineMarker (trimStartL swayStartLine) = true) := by decide
    rw [show ((([swayStartLine, optLine, swayEndLine]).drop 0).take (2 - 0 + 1)) =
        [swayStartLine, optLine, swayEndLine] from rfl,
      List.find?_cons_of_neg (p := fun l => startsWithL optionsLineMarker (trimStartL l)) _ h0,
      List.find?_cons_of_pos (p := fun l => startsWithL optionsLineMarker (trimStartL l)) _ hpre]
  exact parse_eval (mkSwayBlock optLine) startMarker endMarker
    [swayStartLine, optLine, swayEndLine] 0 2 optLine hlines hi hj (by omega) hfind hne

/-- C4 witness: the spec's two example options lines, plus one with uneven
whitespace and separators, parse to the expected ordered duplicate-free
sets. -/
theorem C4_witness :
    parse_options_from_sway
        (mkSwayBlock "# Sample Rate Options = 44100, 48000, 96000".data)
        startMarker endMarker = .ok [44100, 48000, 96000] ∧
    parse_options_from_sway
        (mkSwayBlock "# Sample Rate Options = 48000, 44100, 48000".data)
        startMarker endMarker = .ok [44100, 48000] ∧
    parse_options_from_sway
        (mkSwayBlock "   # Sample Rate Options =   44100,,48000 ;  96000".data)
        startMarker endMarker = .ok [44100, 48000, 96000] := by
  refine ⟨?_, ?_, ?_⟩
  · have h := C4_parse_options_normalizes
      "# Sample Rate Options = 44100, 48000, 96000".data
      (by decide) (by decide) (by decide) (by decide) (by decide)
    exact h.1.trans (by rfl)
  · have h := C4_parse_options_normalizes
      "# Sample Rate Options = 48000, 44100, 48000".data
      (by decide) (by decide) (by decide) (by decide) (by decide)
    exact h.1.trans (by rfl)
  · have h := C4_parse_options_normalizes
      "   # Sample Rate Options =   44100,,48000 ;  96000".data
      (by decide) (by decide) (by decide) (by decide) (by decide)
    exact h.1.trans (by rfl)

/-- C5: whenever `parse_options_from_sway` returns (rather than panics),
the returned Allowed Rate Set is non-empty, strictly increasing, and (hence)
duplicate-free. -/
theorem C5_parse_result_invariant (content s e : List Char) (opts : List Nat)
    (h : parse_options_from_sway content s e = .ok opts) :
    opts ≠ [] ∧ opts.Pairwise (· < ·) ∧ opts.Nodup := by
  unfold parse_options_from_sway at h
  dsimp only at h
  cases hi : (rustLines content).findIdx? (fun l => containsSub s l) with
  | none => rw [hi] at h; exact absurd h (by simp)
  | some start_idx =>
    rw [hi] at h
    dsimp only at h
    cases hj : (rustLines content).findIdx? (fun l => containsSub e l) with
    | none => rw [hj] at h; exact absurd h (by simp)
    | some end_idx =>
      rw [hj] at h
      dsimp only at h
      by_cases hij : end_idx ≤ start_idx
      · rw [if_pos hij] at h; exact absurd h (by simp)
      · rw [if_neg hij] at h
        cases hfind : (((rustLines content).drop start_idx).take
            (end_idx - start_idx + 1)).find?
            (fun l => startsWithL optionsLineMarker (trimStartL l)) with
        | none => rw [hfind] at h; exact absurd h (by simp)
        | some opt_line =>
          rw [hfind] at h
          dsimp only at h
          by_cases hempty : (extractNums opt_line).isEmpty = true
          · rw [if_pos hempty] at h; exact absurd h (by simp)
          · rw [if_neg hempty] at h
            have hne : extractNums opt_line ≠ [] := by
              cases hx : extractNums opt_line with
              | nil => rw [hx] at hempty; exact absurd rfl hempty
              | cons a l => simp
            obtain ⟨h1, h2, -⟩ := sortDedup_props (extractNums opt_line) hne
            have hopts : opts = dedupC (rustSort (extractNums opt_line)) := by
              simpa using h.symm
            subst hopts
            exact ⟨h1, h2, h2.imp fun hlt => ne_of_lt hlt⟩

/-- C5 witness: a concrete parse returns [44100, 48000, 96000], which is
non-empty, strictly increasing, and duplicate-free. -/
theorem C5_witness :
    ([44100, 48000, 96000] : List Nat) ≠ [] ∧
      ([44100, 48000, 96000] : List Nat).Pairwise (· < ·) ∧
      ([44100, 48000, 96000] : List Nat).Nodup :=
  C5_parse_result_invariant
    ("# Pipewire Sample Rate Options Start\n# Sample Rate Options = 44100, 48000, 96000\n# Pipewire Sample Rate Options End\n".data)
    startMarker endMarker [44100, 48000, 96000] rfl

/-! ## `read_rate_from_file` (main.rs lines 146-152)

The file read becomes an `Option (List Char)` (`none` models a missing or
unreadable file, the `fs::read_to_string(path).ok()?` step); the regex
`default\.clock\.rate\s*=\s*"?(\d{4,5})"?` search becomes a left-to-right
scan for the first position where the pattern matches. -/

/-- Try to match `default\.clock\.rate\s*=\s*"?(\d{4,5})"?` at the head of
the input, returning the captured number. The closing `"?` always matches,
and backtracking over the opening `"?` can never help (if a quote is
present but is not followed by four digits, retrying without consuming the
quote immediately fails on the quote itself), so a no-backtracking model is
exact. -/
def matchRateAt (s : List Char) : Option Nat :=
  if startsWithL "default.clock.rate".data s then
    let r1 := s.drop ("default.clock.rate".data).length
    match r1.dropWhile rustIsWhitespace with
    | '=' :: r3 =>
      let r4 := r3.dropWhile rustIsWhitespace
      let r5 := match r4 with
        | '"' :: t => t
        | _ => r4
      let digits := r5.takeWhile Char.isDigit
      if 4 ≤ digits.length then some (digitsToNat (digits.take 5)) else none
    | _ => none
  else none

/-- Leftmost-match regex search: try each start position left to right. -/
def findRate : List Char → Option Nat
  | [] => none
  | c :: rest =>
    match matchRateAt (c :: rest) with
    | some n => some n
    | none => findRate rest

/-- `read_rate_from_file`: `none` input models a failed file read. The
`parse::<u32>` of a 4-5 digit capture never fails, so the capture itself is
the result. -/
def read_rate_from_file (content : Option (List Char)) : Option Nat :=
  match content with
  | none => none
  | some s => findRate s

/-! ## `write_canonical_samplerate_conf` (main.rs lines 154-180)

Only the text written to the file is modelled here (the directory creation
and the `fs::write` call are I/O whose success is an environment bit in the
`main` model below). The text is the Rust format string
`"context.properties = {{\n    default.clock.rate          = {}\n    default.clock.allowed-rates = {}\n}}\n"`
applied to the new rate and to the bracketed allowed list; the explicit
`'\n'` conses below mark the exact newline positions of that format
string. -/

/-- Decimal digit character for a value below ten. -/
def digitChar (n : Nat) : Char := Char.ofNat ('0'.toNat + n)

/-- Decimal digits of `n`, most significant first (fuelled; `n+1` steps
always suffice since the argument shrinks by a factor of ten each step). -/
def natCharsAux : Nat → Nat → List Char
  | 0, _ => []
  | fuel + 1, n =>
    if n < 10 then [digitChar n]
    else natCharsAux fuel (n / 10) ++ [digitChar (n % 10)]

/-- Rust `u32::to_string`: decimal representation. -/
def natChars (n : Nat) : List Char := natCharsAux (n + 1) n

/-- `Vec::join(" ")`. -/
def spaceJoin : List (List Char) → List Char
  | [] => []
  | [x] => x
  | x :: y :: rest => x ++ ' ' :: spaceJoin (y :: rest)

/-- `format!("[ {} ]", v.iter().map(to_string).join(" "))`. -/
def allowedBracket (v : List Nat) : List Char :=
  "[ ".data ++ spaceJoin (v.map natChars) ++ " ]".data

/-- The text `write_canonical_samplerate_conf` writes: the allowed list is
re-sorted and re-deduplicated, then laid into the fixed four-physical-line
format string. -/
def write_canonical_samplerate_conf (new_rate : Nat) (allowed_all : List Nat) :
    List Char :=
  let v := dedupC (rustSort allowed_all)
  "context.properties = \x7b".data ++
    ('\n' :: ("    default.clock.rate          = ".data ++ natChars new_rate ++
    ('\n' :: ("    default.clock.allowed-rates = ".data ++ allowedBracket v ++
    ('\n' :: ("\x7d".data ++ ['\n']))))))

/-! ## `restart_pipewire_stack` (main.rs lines 184-229)

Each `systemctl` invocation is an external effect; its outcome is a field
of `RestartEnv`. The first combined restart distinguishes spawn failure
(`Command::status` returning `Err`, mapped to an error return) from an
unsuccessful exit status; the fallback steps use
`.map(|s| s.success()).unwrap_or(false)`, which collapses spawn failure and
bad status into `false`. The `stop pipewire.socket` and
`start pipewire.socket` steps have their results discarded by the source
(`let _ = ...`), so they carry no environment bit. -/

structure RestartEnv where
  firstRestart : Option Bool
  startPipewireOk : Bool
  restartWireplumberOk : Bool

def restart_pipewire_stack (e : RestartEnv) : Except String Unit :=
  match e.firstRestart with
  | none => .error "Failed to exec systemctl"
  | some true => .ok ()
  | some false =>
    if e.startPipewireOk && e.restartWireplumberOk then .ok ()
    else .error "PipeWire/WirePlumber restart failed (even after socket bounce)."

def exceptOk {ε α : Type} : Except ε α → Bool
  | .ok _ => true
  | .error _ => false

/-! ## The `main` control flow (main.rs lines 11-82)

`MainEnv` carries the outcomes of all external operations `main` can
perform: the sway config contents (a failed read there panics before
anything else and is outside every claim), the optional contents of
`99-samplerate.conf`, the `--show` flag, the success of the `fs::write` in
`write_canonical_samplerate_conf`, and the `systemctl` outcomes.
`run_main` returns `Except.error` for a panic (which aborts the process
before any further external step) and otherwise a `MainResult` recording
the process exit code, whether `write_canonical_samplerate_conf` and the
restart were invoked, the current rate `main` computed, and the selected
next rate. Notifications are fire-and-forget (`let _ = ...show()`) and
never influence anything, so they are not modelled. -/

structure MainEnv where
  swayContent : List Char
  samplerateContent : Option (List Char)
  showFlag : Bool
  writeOk : Bool
  restartEnv : RestartEnv

structure MainResult where
  exitCode : Nat
  writeAttempted : Bool
  restartAttempted : Bool
  currentUsed : Nat
  nextSelected : Option Nat

def run_main (env : MainEnv) : Except String MainResult :=
  match parse_options_from_sway env.swayContent startMarker endMarker with
  | .error msg => .error msg
  | .ok options =>
    let current_file := (read_rate_from_file env.samplerateContent).getD (options.getD 0 0)
    if env.showFlag then
      .ok ⟨0, false, false, current_file, none⟩
    else
      let next := next_rate options current_file
      if env.writeOk then
        match restart_pipewire_stack env.restartEnv with
        | .error _ => .ok ⟨1, true, true, current_file, some next⟩
        | .ok _ => .ok ⟨0, true, true, current_file, some next⟩
      else
        .ok ⟨1, true, false, current_file, some next⟩

/-- Whether the run reached the persistence step (an aborted run never
does). -/
def writeInvoked : Except String MainResult → Bool
  | .ok r => r.writeAttempted
  | .error _ => false

/-! ### Lemmas about decimal rendering and the conf text -/

lemma isDigit_digitChar (n : Nat) (h : n < 10) : (digitChar n).isDigit = true := by
  interval_cases n <;> decide

lemma isDigit_of_mem_natCharsAux :
    ∀ (fuel n : Nat) (c : Char), c ∈ natCharsAux fuel n → c.isDigit = true := by
  intro fuel
  induction fuel with
  | zero => intro n c hc; simp [natCharsAux] at hc
  | succ fuel ih =>
    intro n c hc
    unfold natCharsAux at hc
    by_cases hn : n < 10
    · rw [if_pos hn] at hc
      rw [List.mem_singleton.mp hc]
      exact isDigit_digitChar n hn
    · rw [if_neg hn] at hc
      rcases List.mem_append.mp hc with h | h
      · exact ih (n / 10) c h
      · rw [List.mem_singleton.mp h]
        exact isDigit_digitChar (n % 10) (Nat.mod_lt n (by decide))

lemma isDigit_of_mem_natChars (n : Nat) (c : Char) (h : c ∈ natChars n) :
    c.isDigit = true :=
  isDigit_of_mem_natCharsAux (n + 1) n c h

lemma mem_spaceJoin_natChars :
    ∀ (v : List Nat) (c : Char), c ∈ spaceJoin (v.map natChars) →
      c = ' ' ∨ c.isDigit = true := by
  intro v
  induction v with
  | nil => intro c hc; simp [spaceJoin] at hc
  | cons x v ih =>
    intro c hc
    cases v with
    | nil =>
      exact Or.inr (isDigit_of_mem_natChars x c (by simpa [spaceJoin] using hc))
    | cons y rest =>
      simp only [List.map_cons, spaceJoin] at hc
      rcases List.mem_append.mp hc with h | h
      · exact Or.inr (isDigit_of_mem_natChars x c h)
      · rcases List.mem_cons.mp h with h | h
        · exact Or.inl h
        · exact ih c (by simpa [spaceJoin] using h)

lemma no_ctl_allowedBracket (v : List Nat) (c : Char)
    (hc : c ∈ allowedBracket v) : c ≠ '\n' ∧ c ≠ '\r' := by
  unfold allowedBracket at hc
  rcases List.mem_append.mp hc with h | h
  · rcases List.mem_append.mp h with h | h
    · refine ⟨?_, ?_⟩ <;> rintro rfl <;> revert h <;> decide
    · rcases mem_spaceJoin_natChars v c h with h | h
      · subst h; exact ⟨by decide, by decide⟩
      · constructor <;> rintro rfl <;> simp at h
  · refine ⟨?_, ?_⟩ <;> rintro rfl <;> revert h <;> decide

/-- `Vec::dedup` is the identity on a list without consecutive duplicates
(in particular on a strictly increasing one). -/
lemma dedupAfter_eq_self :
    ∀ (l : List Nat) (p : Nat), (p :: l).Pairwise (· < ·) → dedupAfter p l = l := by
  intro l
  induction l with
  | nil => intro p _; rfl
  | cons b rest ih =>
    intro p hp
    have hpb : p < b := (List.pairwise_cons.mp hp).1 b (List.mem_cons_self b rest)
    unfold dedupAfter
    rw [if_neg (show ¬((b == p) = true) by simp; exact fun hEq => absurd (hEq ▸ hpb) (lt_irrefl b))]
    rw [ih b (List.pairwise_cons.mp hp).2]

/-- The normalization inside `write_canonical_samplerate_conf` is the
identity on the already-normalized list `main` passes it. -/
lemma sortDedup_eq_self (v : List Nat) (h : v.Pairwise (· < ·)) :
    dedupC (rustSort v) = v := by
  have hsorted : v.Sorted (· ≤ ·) := h.imp fun hlt => le_of_lt hlt
  rw [show rustSort v = v from hsorted.insertionSort_eq]
  cases v with
  | nil => rfl
  | cons a rest =>
    show a :: dedupAfter a rest = a :: rest
    rw [dedupAfter_eq_self rest a h]

/-! ## Claim theorems for `main`, the restart logic and the conf writer -/

/-- C6: when the marked block of the sway config is malformed — which is
exactly when `parse_options_from_sway` aborts with a message (start marker
missing, end marker missing, end marker at or before the start marker,
options line missing, or no 4-5 digit number on it) — the whole run aborts
with that message and the persistence step
(`write_canonical_samplerate_conf`) is never invoked, so no external state
changes. -/
theorem C6_malformed_input_aborts (env : MainEnv) (msg : String)
    (h : parse_options_from_sway env.swayContent startMarker endMarker =
      Except.error msg) :
    run_main env = Except.error msg ∧ writeInvoked (run_main env) = false := by
  constructor
  · unfold run_main
    rw [h]
  · unfold run_main
    rw [h]
    rfl

/-- C6 witness: three malformed configs — end marker missing, markers out
of order, and an options line with no 4-5 digit numbers — all abort without
reaching the persistence step. -/
theorem C6_witness :
    writeInvoked (run_main
      ⟨"# Pipewire Sample Rate Options Start\n# Sample Rate Options = 44100, 48000\n".data,
        none, false, true, ⟨some true, true, true⟩⟩) = false ∧
    writeInvoked (run_main
      ⟨"# Pipewire Sample Rate Options End\n# Pipewire Sample Rate Options Start\n# Sample Rate Options = 44100, 48000\n".data,
        none, false, true, ⟨some true, true, true⟩⟩) = false ∧
    writeInvoked (run_main
      ⟨"# Pipewire Sample Rate Options Start\n# Sample Rate Options = none\n# Pipewire Sample Rate Options End\n".data,
        none, false, true, ⟨some true, true, true⟩⟩) = false := by
  refine ⟨?_, ?_, ?_⟩
  · exact (C6_malformed_input_aborts
      ⟨"# Pipewire Sample Rate Options Start\n# Sample Rate Options = 44100, 48000\n".data,
        none, false, true, ⟨some true, true, true⟩⟩
      ("Marker " ++ endMarker.asString ++ " not found in sway config.") rfl).2
  · exact (C6_malformed_input_aborts
      ⟨"# Pipewire Sample Rate Options End\n# Pipewire Sample Rate Options Start\n# Sample Rate Options = 44100, 48000\n".data,
        none, false, true, ⟨some true, true, true⟩⟩
      "Options End marker appears before Start marker." rfl).2
  · exact (C6_malformed_input_aborts
      ⟨"# Pipewire Sample Rate Options Start\n# Sample Rate Options = none\n# Pipewire Sample Rate Options End\n".data,
        none, false, true, ⟨some true, true, true⟩⟩
      ("No sample-rate numbers found on options line: " ++
        ("# Sample Rate Options = none".data).asString ++ ".") rfl).2

/-- C7: a failed read of the currently-active rate (`read_rate_from_file`
returning `none`, e.g. missing file or no matching pattern) is not an
error: the run still produces a result, and the current rate it uses is the
first element of the parsed Allowed Rate Set. -/
theorem C7_read_failure_defaults_to_first (env : MainEnv) (options : List Nat)
    (hparse : parse_options_from_sway env.swayContent startMarker endMarker =
      Except.ok options)
    (hread : read_rate_from_file env.samplerateContent = none) :
    ∃ r, run_main env = Except.ok r ∧ r.currentUsed = options.getD 0 0 := by
  unfold run_main
  rw [hparse]
  dsimp only
  rw [hread]
  by_cases hshow : env.showFlag = true
  · rw [if_pos hshow]
    exact ⟨_, rfl, rfl⟩
  · rw [if_neg hshow]
    by_cases hw : env.writeOk = true
    · rw [if_pos hw]
      cases hres : restart_pipewire_stack env.restartEnv with
      | error e => exact ⟨_, rfl, rfl⟩
      | ok u => exact ⟨_, rfl, rfl⟩
    · rw [if_neg hw]
      exact ⟨_, rfl, rfl⟩

/-- C7 witness: with a missing `99-samplerate.conf` (content `none`) the run
completes and treats 44100 — the first parsed option — as current. -/
theorem C7_witness :
    ∃ r, run_main
        ⟨"# Pipewire Sample Rate Options Start\n# Sample Rate Options = 44100, 48000, 96000\n# Pipewire Sample Rate Options End\n".data,
          none, false, true, ⟨some true, true, true⟩⟩ = Except.ok r ∧
      r.currentUsed = 44100 :=
  C7_read_failure_defaults_to_first _ [44100, 48000, 96000] rfl rfl

/-- C8: on a non-`--show` run that gets past parsing, the exit code is 0
exactly when the write of the persisted selection succeeds and the restart
(first attempt or its fallback sequence) succeeds, and 1 when either
fails. -/
theorem C8_exit_codes (env : MainEnv) (options : List Nat)
    (hparse : parse_options_from_sway env.swayContent startMarker endMarker =
      Except.ok options)
    (hshow : env.showFlag = false) :
    ∃ r, run_main env = Except.ok r ∧
      r.exitCode =
        if env.writeOk && exceptOk (restart_pipewire_stack env.restartEnv)
        then 0 else 1 := by
  unfold run_main
  rw [hparse]
  dsimp only
  rw [if_neg (show ¬(env.showFlag = true) by simp [hshow])]
  by_cases hw : env.writeOk = true
  · rw [if_pos hw]
    cases hres : restart_pipewire_stack env.restartEnv with
    | error e => exact ⟨_, rfl, by simp [hw, exceptOk]⟩
    | ok u => exact ⟨_, rfl, by simp [hw, exceptOk]⟩
  · rw [if_neg hw]
    have hwf : env.writeOk = false := by simpa using hw
    exact ⟨_, rfl, by simp [hwf]⟩

/-- C8 witness: with a good config, exit code 0 when write and restart both
succeed; exit code 1 when the write fails; exit code 1 when the restart and
its fallback fail. -/
theorem C8_witness :
    (∃ r, run_main
        ⟨"# Pipewire Sample Rate Options Start\n# Sample Rate Options = 44100, 48000, 96000\n# Pipewire Sample Rate Options End\n".data,
          none, false, true, ⟨some true, true, true⟩⟩ = Except.ok r ∧
        r.exitCode = 0) ∧
    (∃ r, run_main
        ⟨"# Pipewire Sample Rate Options Start\n# Sample Rate Options = 44100, 48000, 96000\n# Pipewire Sample Rate Options End\n".data,
          none, false, false, ⟨some true, true, true⟩⟩ = Except.ok r ∧
        r.exitCode = 1) ∧
    (∃ r, run_main
        ⟨"# Pipewire Sample Rate Options Start\n# Sample Rate Options = 44100, 48000, 96000\n# Pipewire Sample Rate Options End\n".data,
          none, false, true, ⟨some false, false, true⟩⟩ = Except.ok r ∧
        r.exitCode = 1) := by
  refine ⟨?_, ?_, ?_⟩
  · obtain ⟨r, h1, h2⟩ := C8_exit_codes
      ⟨"# Pipewire Sample Rate Options Start\n# Sample Rate Options = 44100, 48000, 96000\n# Pipewire Sample Rate Options End\n".data,
        none, false, true, ⟨some true, true, true⟩⟩ [44100, 48000, 96000] rfl rfl
    exact ⟨r, h1, h2.trans (by rfl)⟩
  · obtain ⟨r, h1, h2⟩ := C8_exit_codes
      ⟨"# Pipewire Sample Rate Options Start\n# Sample Rate Options = 44100, 48000, 96000\n# Pipewire Sample Rate Options End\n".data,
        none, false, false, ⟨some true, true, true⟩⟩ [44100, 48000, 96000] rfl rfl
    exact ⟨r, h1, h2.trans (by rfl)⟩
  · obtain ⟨r, h1, h2⟩ := C8_exit_codes
      ⟨"# Pipewire Sample Rate Options Start\n# Sample Rate Options = 44100, 48000, 96000\n# Pipewire Sample Rate Options End\n".data,
        none, false, true, ⟨some false, false, true⟩⟩ [44100, 48000, 96000] rfl rfl
    exact ⟨r, h1, h2.trans (by rfl)⟩

/-- C9: for a selected rate and the allowed list `main` passes (normalized,
i.e. strictly increasing — claim C5), the written text is the fixed
four-physical-line block whose body is exactly two lines: the selected-rate
line `default.clock.rate          = <rate>` and the allowed-rates line
`default.clock.allowed-rates = [ r1 r2 ... ]` listing the full allowed
list. -/
theorem C9_conf_text (rate : Nat) (allowed : List Nat)
    (hs : allowed.Pairwise (· < ·)) :
    rustLines (write_canonical_samplerate_conf rate allowed) =
      ["context.properties = \x7b".data,
       "    default.clock.rate          = ".data ++ natChars rate,
       "    default.clock.allowed-rates = ".data ++ allowedBracket allowed,
       "\x7d".data] := by
  have h2nl : '\n' ∉ "    default.clock.rate          = ".data ++ natChars rate := by
    intro hmem
    rcases List.mem_append.mp hmem with h | h
    · exact absurd h (by decide)
    · have := isDigit_of_mem_natChars rate '\n' h
      simp at this
  have h2cr : '\r' ∉ "    default.clock.rate          = ".data ++ natChars rate := by
    intro hmem
    rcases List.mem_append.mp hmem with h | h
    · exact absurd h (by decide)
    · have := isDigit_of_mem_natChars rate '\r' h
      simp at this
  have h3nl : '\n' ∉ "    default.clock.allowed-rates = ".data ++ allowedBracket allowed := by
    intro hmem
    rcases List.mem_append.mp hmem with h | h
    · exact absurd h (by decide)
    · exact (no_ctl_allowedBracket allowed '\n' h).1 rfl
  have h3cr : '\r' ∉ "    default.clock.allowed-rates = ".data ++ allowedBracket allowed := by
    intro hmem
    rcases List.mem_append.mp hmem with h | h
    · exact absurd h (by decide)
    · exact (no_ctl_allowedBracket allowed '\r' h).2 rfl
  unfold write_canonical_samplerate_conf
  dsimp only
  rw [sortDedup_eq_self allowed hs]
  rw [rustLines_cons _ _ (by decide), rustLines_cons _ _ h2nl,
    rustLines_cons _ _ h3nl,
    show rustLines ("\x7d".data ++ ['\n']) = ["\x7d".data] from by decide,
    stripCr_eq_self _ h2cr, stripCr_eq_self _ h3cr,
    show stripCr "context.properties = \x7b".data =
      "context.properties = \x7b".data from by decide]

/-- C9 witness: rate 48000 with allowed list [44100, 48000, 96000] gives
exactly the expected literal four lines. -/
theorem C9_witness :
    rustLines (write_canonical_samplerate_conf 48000 [44100, 48000, 96000]) =
      ["context.properties = \x7b".data,
       "    default.clock.rate          = 48000".data,
       "    default.clock.allowed-rates = [ 44100 48000 96000 ]".data,
       "\x7d".data] :=
  (C9_conf_text 48000 [44100, 48000, 96000] (by decide)).trans (by decide)

end PwSwitcher
